import Mathlib

/-!
Shallow embedding of the beautiful-noise media-sharing backend
(src/server.js) and proofs of its specification claims.

The repository file contains two revisions of the same Express server,
separated by a document marker: the first handler block spans lines
1-150 and the second spans lines 151-299.  The two revisions agree on
every behaviour relevant to the claims except thumbnail naming, so the
shared logic is embedded once and the upload handler is embedded twice
(`handleUpload_v1` for the first block, `handleUpload` for the second).

Filesystem effects are made explicit: the persisted metadata document is
a `StoredDoc` value threaded through the handlers, `fs.renameSync` calls
become `FileMove` records, and `path.join(__dirname, ...)` is modelled
as joining the path segments relative to the server directory with `/`.
JSON.stringify/JSON.parse are modelled at the level of a JSON syntax
tree `Json`; text-level escaping is not modelled.
-/

/-- Character-level prefix test: `headMatch p s` is true iff the list `p`
is an initial segment of `s`.  Used to model both JS
`String.prototype.startsWith` and the prefix step of `includes`. -/
def headMatch : List Char → List Char → Bool
  | [], _ => true
  | _ :: _, [] => false
  | c :: cs, d :: ds => c == d && headMatch cs ds

/-- Model of JS `hay.startsWith(pre)` (exact code-unit prefix; the
arguments in the server are ASCII MIME types). -/
def jsStartsWith (hay pre : String) : Bool :=
  headMatch pre.data hay.data

/-- Substring scan over character lists: true iff `sub` occurs
contiguously in `hay`. -/
def includesList (hay sub : List Char) : Bool :=
  headMatch sub hay ||
    match hay with
    | [] => false
    | _ :: t => includesList t sub

/-- Model of JS `hay.includes(sub)` (contiguous substring test). -/
def jsIncludes (hay sub : String) : Bool :=
  includesList hay.data sub.data

/-- Model of JS `String.prototype.toLowerCase` restricted to the ASCII
range, realised with `Char.toLower` mapped over the characters. -/
def jsToLower (s : String) : String :=
  String.mk (s.data.map Char.toLower)

/-- Characters removed from both ends of a string, modelling JS
`String.prototype.trim` on ASCII whitespace. -/
def trimChars (cs : List Char) : List Char :=
  ((cs.dropWhile Char.isWhitespace).reverse.dropWhile Char.isWhitespace).reverse

/-- Model of JS `s.trim()`. -/
def jsTrim (s : String) : String :=
  String.mk (trimChars s.data)

/-- Model of the JS idiom `x || d` for a possibly-absent string `x`:
an absent or empty (falsy) string falls back to the default `d`. -/
def jsOrElse (v : Option String) (d : String) : String :=
  match v with
  | none => d
  | some s => if s = "" then d else s

/-- Model of Node `path.extname` on a base name (the server only applies
it to `originalname` values, which carry no directory separators): the
suffix starting at the last dot, or `""` when there is no dot or the
only dot is the leading character. -/
def extname (s : String) : String :=
  let r := s.data.reverse
  let noDot := r.takeWhile (fun c => c ≠ '.')
  if noDot.length = r.length then ""
  else if noDot.length + 1 = s.data.length then ""
  else String.mk (s.data.drop (s.data.length - noDot.length - 1))

/-- Model of Node `path.parse(s).name` on a base name: the name with the
`extname` suffix removed. -/
def parseName (s : String) : String :=
  String.mk (s.data.take (s.data.length - (extname s).data.length))

/-- JSON syntax tree, the image of `JSON.parse` / the domain of
`JSON.stringify` (numbers restricted to the integers the server ever
stores). -/
inductive Json where
  | null
  | bool (b : Bool)
  | num (n : Int)
  | str (s : String)
  | arr (elems : List Json)
  | obj (fields : List (String × Json))

/-- One persisted media item, the element type of the metadata array
built at src/server.js:66-73 and 217-224. -/
structure MediaRecord where
  filename : String
  videoName : String
  username : String
  type : String
  thumbnail : Option String
  uploadedAt : Int
  deriving DecidableEq, Repr

/-- JSON encoding of the optional thumbnail field (`null` when absent). -/
def encodeThumb : Option String → Json
  | none => Json.null
  | some s => Json.str s

/-- JSON object produced for one metadata entry by `JSON.stringify`. -/
def encodeRecord (r : MediaRecord) : Json :=
  Json.obj [("filename", Json.str r.filename),
            ("videoName", Json.str r.videoName),
            ("username", Json.str r.username),
            ("type", Json.str r.type),
            ("thumbnail", encodeThumb r.thumbnail),
            ("uploadedAt", Json.num r.uploadedAt)]

/-- JSON array produced for the whole metadata collection. -/
def encodeRecords (l : List MediaRecord) : Json :=
  Json.arr (l.map encodeRecord)

/-- First field of a JSON object with the given key, as JS property
lookup on the objects the server writes (keys are unique). -/
def fieldLookup : List (String × Json) → String → Option Json
  | [], _ => none
  | (k, v) :: rest, key => if k = key then some v else fieldLookup rest key

/-- String payload of a JSON value, when it is a string. -/
def asStr : Json → Option String
  | Json.str s => some s
  | _ => none

/-- Integer payload of a JSON value, when it is a number. -/
def asNum : Json → Option Int
  | Json.num n => some n
  | _ => none

/-- Optional-string payload of a JSON value (`null` or a string). -/
def asThumb : Json → Option (Option String)
  | Json.null => some none
  | Json.str s => some (some s)
  | _ => none

/-- Typed reading of one metadata entry back out of its JSON object. -/
def decodeRecord (j : Json) : Option MediaRecord :=
  match j with
  | Json.obj fs => do
      let filename ← fieldLookup fs "filename" >>= asStr
      let videoName ← fieldLookup fs "videoName" >>= asStr
      let username ← fieldLookup fs "username" >>= asStr
      let type ← fieldLookup fs "type" >>= asStr
      let thumbnail ← fieldLookup fs "thumbnail" >>= asThumb
      let uploadedAt ← fieldLookup fs "uploadedAt" >>= asNum
      pure { filename := filename, videoName := videoName,
             username := username, type := type,
             thumbnail := thumbnail, uploadedAt := uploadedAt }
  | _ => none

/-- Typed reading of a list of metadata entries. -/
def decodeRecordList : List Json → Option (List MediaRecord)
  | [] => some []
  | j :: rest => do
      let r ← decodeRecord j
      let rs ← decodeRecordList rest
      pure (r :: rs)

/-- Typed reading of the whole metadata document. -/
def decodeRecords : Json → Option (List MediaRecord)
  | Json.arr xs => decodeRecordList xs
  | _ => none

/-- Observable state of the persisted metadata document
(`media-metadata.json`): absent (`fs.existsSync` is false), unreadable
(`fs.readFileSync` throws), malformed (`JSON.parse` throws), or holding
a parsed JSON value. -/
inductive StoredDoc where
  | absent
  | unreadable
  | malformed
  | json (j : Json)

/-- Embedding of `readMetadata` (src/server.js:29-36 and 185-192): `[]`
when the file is absent, and the `try`/`catch` turns a read or parse
failure into `[]`; otherwise the parsed document.  In this typed
embedding the parsed value is read back into the record list; the server
only ever writes documents in the image of `encodeRecords`, so the
decoding step is exact on every document the server produces. -/
def readMetadata : StoredDoc → List MediaRecord
  | StoredDoc.absent => []
  | StoredDoc.unreadable => []
  | StoredDoc.malformed => []
  | StoredDoc.json j => (decodeRecords j).getD []

/-- Embedding of `saveMetadata` (src/server.js:38-40 and 194-196):
`fs.writeFileSync(metadataFile, JSON.stringify(data, null, 2))`
overwrites the document with the serialized collection. -/
def saveMetadata (data : List MediaRecord) : StoredDoc :=
  StoredDoc.json (encodeRecords data)

/-- One uploaded file as multer presents it to the handler: the staging
path under `uploads/temp/`, the client's original file name, and the
declared MIME type. -/
structure UploadedFile where
  path : String
  originalname : String
  mimetype : String
  deriving DecidableEq, Repr

/-- The parts of a `POST /upload` request the handler reads: the two
optional file fields and the two optional body text fields. -/
structure UploadRequest where
  media : Option UploadedFile
  thumbnail : Option UploadedFile
  videoName : Option String
  username : Option String
  deriving DecidableEq, Repr

/-- Response of the upload handler: `res.status(400).send(text)` or
`res.json(\x7b message \x7d)` (implicit status 200). -/
inductive UploadResponse where
  | clientError (status : Nat) (text : String)
  | jsonMessage (message : String)
  deriving DecidableEq, Repr

/-- One `fs.renameSync(src, dest)` call, with paths relative to the
server directory. -/
structure FileMove where
  src : String
  dest : String
  deriving DecidableEq, Repr

/-- Complete observable outcome of one run of the upload handler. -/
structure UploadOutcome where
  response : UploadResponse
  doc : StoredDoc
  moves : List FileMove

/-- Classification at src/server.js:54 and 208:
`mediaFile.mimetype.startsWith('video') ? 'videos' : 'audios'`. -/
def mediaTypeOf (mediaFile : UploadedFile) : String :=
  if jsStartsWith mediaFile.mimetype "video" then "videos" else "audios"

/-- Embedding of the upload handler of the second server block
(src/server.js:198-241).  `nowName` and `nowAt` are the two `Date.now()`
readings (for the generated filename and the `uploadedAt` field). -/
def handleUpload (req : UploadRequest) (nowName nowAt : Int)
    (doc : StoredDoc) : UploadOutcome :=
  match req.media with
  | none => ⟨UploadResponse.clientError 400 "No media file uploaded.", doc, []⟩
  | some mediaFile =>
    let mediaType := mediaTypeOf mediaFile
    let mediaExt := extname mediaFile.originalname
    let mediaFilename := toString nowName ++ mediaExt
    let mediaPath := "uploads/" ++ mediaType ++ "/" ++ mediaFilename
    let entry : MediaRecord :=
      { filename := mediaFilename
        videoName := jsOrElse req.videoName mediaFile.originalname
        username := jsOrElse req.username "Unknown"
        type := mediaType
        thumbnail := none
        uploadedAt := nowAt }
    match req.thumbnail with
    | none =>
      let allMetadata := readMetadata doc
      ⟨UploadResponse.jsonMessage "Upload successful.",
       saveMetadata (allMetadata ++ [entry]),
       [⟨mediaFile.path, mediaPath⟩]⟩
    | some thumbFile =>
      let thumbExt := extname thumbFile.originalname
      let baseName := parseName mediaFilename
      let thumbFilename := baseName ++ thumbExt
      let thumbPath := "uploads/thumbnails/" ++ thumbFilename
      let entry2 := { entry with
        thumbnail := some ("/media/thumbnails/" ++ thumbFilename) }
      let allMetadata := readMetadata doc
      ⟨UploadResponse.jsonMessage "Upload successful.",
       saveMetadata (allMetadata ++ [entry2]),
       [⟨mediaFile.path, mediaPath⟩, ⟨thumbFile.path, thumbPath⟩]⟩

/-- Embedding of the upload handler of the first server block
(src/server.js:43-91).  It differs from `handleUpload` in one line only:
the thumbnail destination name is `mediaFilename + thumbExt` (the full
generated media filename, extension included), not the parsed base
name. -/
def handleUpload_v1 (req : UploadRequest) (nowName nowAt : Int)
    (doc : StoredDoc) : UploadOutcome :=
  match req.media with
  | none => ⟨UploadResponse.clientError 400 "No media file uploaded.", doc, []⟩
  | some mediaFile =>
    let mediaType := mediaTypeOf mediaFile
    let mediaExt := extname mediaFile.originalname
    let mediaFilename := toString nowName ++ mediaExt
    let mediaPath := "uploads/" ++ mediaType ++ "/" ++ mediaFilename
    let entry : MediaRecord :=
      { filename := mediaFilename
        videoName := jsOrElse req.videoName mediaFile.originalname
        username := jsOrElse req.username "Unknown"
        type := mediaType
        thumbnail := none
        uploadedAt := nowAt }
    match req.thumbnail with
    | none =>
      let allMetadata := readMetadata doc
      ⟨UploadResponse.jsonMessage "Upload successful.",
       saveMetadata (allMetadata ++ [entry]),
       [⟨mediaFile.path, mediaPath⟩]⟩
    | some thumbFile =>
      let thumbExt := extname thumbFile.originalname
      let thumbFilename := mediaFilename ++ thumbExt
      let thumbPath := "uploads/thumbnails/" ++ thumbFilename
      let entry2 := { entry with
        thumbnail := some ("/media/thumbnails/" ++ thumbFilename) }
      let allMetadata := readMetadata doc
      ⟨UploadResponse.jsonMessage "Upload successful.",
       saveMetadata (allMetadata ++ [entry2]),
       [⟨mediaFile.path, mediaPath⟩, ⟨thumbFile.path, thumbPath⟩]⟩

/-- Response of `GET /media/:type`: a 400 with a JSON error body, or the
filtered and sorted record list. -/
inductive MediaListResponse where
  | clientError (status : Nat) (body : Json)
  | ok (records : List MediaRecord)

/-- Descending-timestamp ordering used by the listing handler.  The JS
comparator `(a, b) => b.uploadedAt - a.uploadedAt` keeps `a` before `b`
exactly when `b.uploadedAt - a.uploadedAt <= 0`; `Array.prototype.sort`
is a stable sort for that preorder, which `List.mergeSort` realises. -/
def uploadedDesc (a b : MediaRecord) : Bool :=
  b.uploadedAt ≤ a.uploadedAt

/-- Embedding of `GET /media/:type` (src/server.js:94-105 and 244-255).
The second component is the metadata document after the request (the
handler never writes it). -/
def handleGetMedia (t : String) (doc : StoredDoc) :
    MediaListResponse × StoredDoc :=
  if t == "videos" || t == "audios" then
    (MediaListResponse.ok
      (((readMetadata doc).filter (fun item => item.type == t)).mergeSort
        uploadedDesc),
     doc)
  else
    (MediaListResponse.clientError 400
      (Json.obj [("error", Json.str "Invalid media type")]), doc)

/-- Embedding of `GET /media/videos/search` (src/server.js:108-120 and
258-270).  `q` is the raw `req.query.q` (absent when the parameter is
missing); the second component is the metadata document after the
request. -/
def handleSearch (q : Option String) (doc : StoredDoc) :
    List MediaRecord × StoredDoc :=
  let query := jsTrim (jsToLower (jsOrElse q ""))
  if query = "" then ([], doc)
  else
    let allMetadata := readMetadata doc
    (allMetadata.filter (fun item =>
        item.type == "videos" &&
        (jsIncludes (jsToLower item.videoName) query ||
         jsIncludes (jsToLower item.username) query)),
     doc)

/-- Embedding of the static file route `app.use('/media', ...)`
(src/server.js:124 and 273): `files` is the on-disk `uploads/` tree as a
relative-path-to-content table; the handler serves a file by lookup and
never touches the metadata document. -/
def handleStaticMedia (p : String) (files : List (String × String))
    (doc : StoredDoc) : Option String × StoredDoc :=
  ((files.find? (fun f => f.1 == p)).map (fun f => f.2), doc)

/-- Embedding of `GET /support` (src/server.js:127-132 and 276-281): a
fixed JSON payload, no metadata access. -/
def handleSupport (doc : StoredDoc) : Json × StoredDoc :=
  (Json.obj [("phone", Json.str "+250783144083"),
             ("message", Json.str "🌟 Your support keeps this platform alive and growing! If you’ve enjoyed the content, consider sending a token of appreciation. Every contribution helps — no matter the size. Thank you! 🙏")],
   doc)

/-- Observable state of the supporters document (`supporters.json`). -/
inductive SupportersDoc where
  | absent
  | unreadable
  | malformed
  | json (j : Json)

/-- Embedding of `GET /supporters` (src/server.js:135-145 and 284-294):
status code and JSON body.  An absent file short-circuits to `[]` with
the default 200; a read or parse failure is caught and answered with
`res.status(500).json([])`; otherwise the parsed contents are returned
verbatim.  The handler never touches the metadata document. -/
def handleSupporters : SupportersDoc → Nat × Json
  | SupportersDoc.absent => (200, Json.arr [])
  | SupportersDoc.unreadable => (500, Json.arr [])
  | SupportersDoc.malformed => (500, Json.arr [])
  | SupportersDoc.json j => (200, j)

/-- Case-insensitive substring test: `needle` occurs in `hay` ignoring
ASCII case.  This is the spec's reading of the search match
condition. -/
def ciContains (hay needle : String) : Bool :=
  jsIncludes (jsToLower hay) (jsToLower needle)

theorem decodeRecord_encodeRecord (r : MediaRecord) :
    decodeRecord (encodeRecord r) = some r := by
  cases r with
  | mk filename videoName username type thumbnail uploadedAt =>
      cases thumbnail <;> rfl

theorem decodeRecordList_map_encode (l : List MediaRecord) :
    decodeRecordList (l.map encodeRecord) = some l := by
  induction l with
  | nil => rfl
  | cons r rest ih =>
      simp [decodeRecordList, decodeRecord_encodeRecord, ih]

theorem readMetadata_save (l : List MediaRecord) :
    readMetadata (saveMetadata l) = l := by
  simp [readMetadata, saveMetadata, encodeRecords, decodeRecords,
        decodeRecordList_map_encode]

/-- C10.  Round-trip of the metadata store: writing any record
collection with `saveMetadata` and reading it back with `readMetadata`
yields the same collection (serialization followed by parsing is the
identity). -/
theorem metadata_roundtrip (records : List MediaRecord) :
    readMetadata (saveMetadata records) = records := by
  simp [readMetadata, saveMetadata, encodeRecords, decodeRecords,
        decodeRecordList_map_encode]

/-- C6.  The metadata reader fails open: it is a total function (never
throws to its caller), and returns the empty collection when the
persisted document is absent, unreadable, or not valid JSON. -/
theorem readMetadata_fails_open :
    readMetadata StoredDoc.absent = [] ∧
    readMetadata StoredDoc.unreadable = [] ∧
    readMetadata StoredDoc.malformed = [] ∧
    ∀ doc : StoredDoc, ∃ records, readMetadata doc = records :=
  ⟨rfl, rfl, rfl, fun _ => ⟨_, rfl⟩⟩

/-- C4.  The media classification is binary: the stored kind is
`videos` exactly when the declared MIME type begins with `video`,
`audios` in every other case, and never anything else. -/
theorem mediaKind_binary (f : UploadedFile) :
    (mediaTypeOf f = "videos" ↔ jsStartsWith f.mimetype "video" = true) ∧
    (mediaTypeOf f = "audios" ↔ jsStartsWith f.mimetype "video" = false) ∧
    (mediaTypeOf f = "videos" ∨ mediaTypeOf f = "audios") := by
  unfold mediaTypeOf
  cases h : jsStartsWith f.mimetype "video" <;> simp

/-- Witness for C4: a `video/mp4` file is classified `videos`, while an
`image/png` file — neither video nor audio — is classified `audios`. -/
theorem mediaKind_binary_witness :
    ((mediaTypeOf ⟨"p1", "a.mp4", "video/mp4"⟩ = "videos" ↔
        jsStartsWith "video/mp4" "video" = true) ∧
     (mediaTypeOf ⟨"p1", "a.mp4", "video/mp4"⟩ = "audios" ↔
        jsStartsWith "video/mp4" "video" = false) ∧
     (mediaTypeOf ⟨"p1", "a.mp4", "video/mp4"⟩ = "videos" ∨
      mediaTypeOf ⟨"p1", "a.mp4", "video/mp4"⟩ = "audios")) ∧
    mediaTypeOf ⟨"p1", "a.mp4", "video/mp4"⟩ = "videos" ∧
    mediaTypeOf ⟨"p2", "b.png", "image/png"⟩ = "audios" :=
  ⟨mediaKind_binary ⟨"p1", "a.mp4", "video/mp4"⟩, rfl, rfl⟩

/-- C7.  An upload request without a media file is answered with status
400 and the plain-text message, moves no file, and leaves the metadata
document untouched, in both server blocks. -/
theorem upload_without_media (req : UploadRequest) (nowName nowAt : Int)
    (doc : StoredDoc) (h : req.media = none) :
    handleUpload req nowName nowAt doc =
      ⟨UploadResponse.clientError 400 "No media file uploaded.", doc, []⟩ ∧
    handleUpload_v1 req nowName nowAt doc =
      ⟨UploadResponse.clientError 400 "No media file uploaded.", doc, []⟩ := by
  refine ⟨?_, ?_⟩
  · unfold handleUpload
    rw [h]
  · unfold handleUpload_v1
    rw [h]

/-- Witness for C7 at a concrete request carrying only text fields. -/
theorem upload_without_media_witness :
    handleUpload ⟨none, none, some "T", some "U"⟩ 1 2 StoredDoc.absent =
      ⟨UploadResponse.clientError 400 "No media file uploaded.",
       StoredDoc.absent, []⟩ ∧
    handleUpload_v1 ⟨none, none, some "T", some "U"⟩ 1 2 StoredDoc.absent =
      ⟨UploadResponse.clientError 400 "No media file uploaded.",
       StoredDoc.absent, []⟩ :=
  upload_without_media ⟨none, none, some "T", some "U"⟩ 1 2 StoredDoc.absent rfl

/-- C8.  The supporters route returns `[]` with status 200 when the
document is absent, `[]` with status 500 when reading or parsing fails,
and the parsed document verbatim with status 200 otherwise. -/
theorem supporters_states :
    handleSupporters SupportersDoc.absent = (200, Json.arr []) ∧
    handleSupporters SupportersDoc.unreadable = (500, Json.arr []) ∧
    handleSupporters SupportersDoc.malformed = (500, Json.arr []) ∧
    ∀ j : Json, handleSupporters (SupportersDoc.json j) = (200, j) :=
  ⟨rfl, rfl, rfl, fun _ => rfl⟩

theorem char_toNat_ofNat_valid (n : Nat) (h : n.isValidChar) :
    (Char.ofNat n).toNat = n := by
  unfold Char.ofNat
  rw [dif_pos h]
  rfl

theorem toLower_toLower (c : Char) : c.toLower.toLower = c.toLower := by
  by_cases h : c.toNat ≥ 65 ∧ c.toNat ≤ 90
  · have h1 : c.toLower = Char.ofNat (c.toNat + 32) := by
      simp only [Char.toLower]
      rw [if_pos h]
    have h2 : (Char.ofNat (c.toNat + 32)).toNat = c.toNat + 32 :=
      char_toNat_ofNat_valid _ (Or.inl (by omega))
    rw [h1]
    simp only [Char.toLower, h2]
    rw [if_neg (by omega)]
  · have h1 : c.toLower = c := by
      simp only [Char.toLower]
      rw [if_neg h]
    rw [h1, h1]

theorem mem_trimChars {x : Char} {cs : List Char} (h : x ∈ trimChars cs) :
    x ∈ cs := by
  unfold trimChars at h
  rw [List.mem_reverse] at h
  have h1 := (List.dropWhile_sublist _).subset h
  rw [List.mem_reverse] at h1
  exact (List.dropWhile_sublist _).subset h1

/-- Lowercasing is idempotent, so the normalized query produced by the
search handler is already in lower case. -/
theorem jsToLower_normalized (s : String) :
    jsToLower (jsTrim (jsToLower s)) = jsTrim (jsToLower s) := by
  unfold jsToLower jsTrim
  congr 1
  have hmem : ∀ x ∈ trimChars ((String.mk (s.data.map Char.toLower)).data),
      Char.toLower x = x := by
    intro x hx
    have hx2 := mem_trimChars hx
    obtain ⟨y, _, rfl⟩ := List.mem_map.1 hx2
    exact toLower_toLower y
  calc (String.mk (trimChars ((String.mk (s.data.map Char.toLower)).data))).data.map
          Char.toLower
      = (String.mk (trimChars ((String.mk (s.data.map Char.toLower)).data))).data.map
          id := List.map_congr_left hmem
    _ = _ := List.map_id _

/-- C3.  The search handler returns `[]` when the normalized query is
empty, and otherwise returns exactly the records whose kind is `videos`
and whose title or uploader name contains the (already lower-case)
normalized query as a case-insensitive substring, in collection order
(it is a `filter` of the stored collection); every returned record has
kind `videos`, so no audio record is ever returned. -/
theorem search_spec (q : Option String) (doc : StoredDoc) :
    (jsTrim (jsToLower (jsOrElse q "")) = "" → (handleSearch q doc).1 = []) ∧
    (jsTrim (jsToLower (jsOrElse q "")) ≠ "" →
      (handleSearch q doc).1 = (readMetadata doc).filter (fun item =>
        item.type == "videos" &&
        (ciContains item.videoName (jsTrim (jsToLower (jsOrElse q ""))) ||
         ciContains item.username (jsTrim (jsToLower (jsOrElse q "")))))) ∧
    (∀ r ∈ (handleSearch q doc).1, r.type = "videos") := by
  refine ⟨?_, ?_, ?_⟩
  · intro h
    simp [handleSearch, h]
  · intro h
    simp only [handleSearch]
    rw [if_neg h]
    simp only [ciContains, jsToLower_normalized]
  · intro r hr
    simp only [handleSearch] at hr
    by_cases h : jsTrim (jsToLower (jsOrElse q "")) = ""
    · rw [if_pos h] at hr
      simp at hr
    · rw [if_neg h] at hr
      simp only [List.mem_filter, Bool.and_eq_true, beq_iff_eq] at hr
      exact hr.2.1

/-- Concrete video record used in the search witness. -/
def vidW : MediaRecord :=
  ⟨"1.mp4", "Sunset Drive", "Alice", "videos", none, 1⟩

/-- Concrete audio record whose title also matches the query, used in
the search witness. -/
def audW : MediaRecord :=
  ⟨"2.mp3", "Sunset Drive", "Bob", "audios", none, 2⟩

/-- Witness for C3: the query `" DRIVE "` normalizes to `"drive"` and
finds the video record but not the matching audio record, and a
whitespace-only query returns `[]`. -/
theorem search_spec_witness :
    (handleSearch (some " DRIVE ") (saveMetadata [vidW, audW])).1 =
      (readMetadata (saveMetadata [vidW, audW])).filter (fun item =>
        item.type == "videos" &&
        (ciContains item.videoName
          (jsTrim (jsToLower (jsOrElse (some " DRIVE ") ""))) ||
         ciContains item.username
          (jsTrim (jsToLower (jsOrElse (some " DRIVE ") ""))))) ∧
    (handleSearch (some " DRIVE ") (saveMetadata [vidW, audW])).1 = [vidW] ∧
    (handleSearch (some "   ") (saveMetadata [vidW, audW])).1 = [] ∧
    (∀ r ∈ (handleSearch (some " DRIVE ") (saveMetadata [vidW, audW])).1,
      r.type = "videos") :=
  ⟨(search_spec (some " DRIVE ") (saveMetadata [vidW, audW])).2.1 (by decide),
   rfl,
   (search_spec (some "   ") (saveMetadata [vidW, audW])).1 (by decide),
   (search_spec (some " DRIVE ") (saveMetadata [vidW, audW])).2.2⟩

theorem uploadedDesc_trans (a b c : MediaRecord) :
    uploadedDesc a b → uploadedDesc b c → uploadedDesc a c := by
  simp only [uploadedDesc, decide_eq_true_eq]
  omega

theorem uploadedDesc_total (a b : MediaRecord) :
    uploadedDesc a b || uploadedDesc b a := by
  simp only [uploadedDesc, Bool.or_eq_true, decide_eq_true_eq]
  omega

/-- C2.  The listing handler: a type outside `{videos, audios}` is
answered with status 400 and a JSON error body; a valid type is answered
with a permutation of exactly the records of that kind, ordered by
upload timestamp descending. -/
theorem media_listing_spec (t : String) (doc : StoredDoc) :
    ((t = "videos" ∨ t = "audios") →
      ∃ l, (handleGetMedia t doc).1 = MediaListResponse.ok l ∧
        List.Perm l ((readMetadata doc).filter (fun item => item.type == t)) ∧
        l.Pairwise (fun a b => b.uploadedAt ≤ a.uploadedAt)) ∧
    (t ≠ "videos" → t ≠ "audios" →
      (handleGetMedia t doc).1 =
        MediaListResponse.clientError 400
          (Json.obj [("error", Json.str "Invalid media type")])) := by
  constructor
  · intro h
    have hb : (t == "videos" || t == "audios") = true := by
      rcases h with h | h <;> simp [h]
    refine ⟨((readMetadata doc).filter (fun item => item.type == t)).mergeSort
        uploadedDesc, ?_, ?_, ?_⟩
    · simp only [handleGetMedia, hb, if_true]
    · exact List.mergeSort_perm _ _
    · exact (List.sorted_mergeSort uploadedDesc_trans uploadedDesc_total _).imp
        (fun hab => by simpa [uploadedDesc] using hab)
  · intro h1 h2
    have hb : (t == "videos" || t == "audios") = false := by
      simp [h1, h2]
    simp [handleGetMedia, hb]

/-- Concrete video records with timestamps 100, 300 and 200, used in the
listing witness. -/
def recW100 : MediaRecord := ⟨"a.mp4", "A", "ua", "videos", none, 100⟩

/-- Second concrete record for the listing witness (timestamp 300). -/
def recW300 : MediaRecord := ⟨"b.mp4", "B", "ub", "videos", none, 300⟩

/-- Third concrete record for the listing witness (timestamp 200). -/
def recW200 : MediaRecord := ⟨"c.mp4", "C", "uc", "videos", none, 200⟩

unseal List.merge List.mergeSort in
/-- Witness for C2: on records stored with timestamps [100, 300, 200]
the listing returns them in order [300, 200, 100], and an invalid type
is answered with the 400 JSON error. -/
theorem media_listing_witness :
    (∃ l, (handleGetMedia "videos"
          (saveMetadata [recW100, recW300, recW200])).1 =
        MediaListResponse.ok l ∧
      List.Perm l ((readMetadata
          (saveMetadata [recW100, recW300, recW200])).filter
        (fun item => item.type == "videos")) ∧
      l.Pairwise (fun a b => b.uploadedAt ≤ a.uploadedAt)) ∧
    (handleGetMedia "videos" (saveMetadata [recW100, recW300, recW200])).1 =
      MediaListResponse.ok [recW300, recW200, recW100] ∧
    (handleGetMedia "playlists" (saveMetadata [recW100, recW300, recW200])).1 =
      MediaListResponse.clientError 400
        (Json.obj [("error", Json.str "Invalid media type")]) :=
  ⟨(media_listing_spec "videos" (saveMetadata [recW100, recW300, recW200])).1
      (Or.inl rfl),
   rfl,
   (media_listing_spec "playlists"
      (saveMetadata [recW100, recW300, recW200])).2 (by decide) (by decide)⟩

theorem handleUpload_doc_eq (mediaFile : UploadedFile)
    (th : Option UploadedFile) (vn un : Option String) (nowName nowAt : Int)
    (doc : StoredDoc) :
    ∃ e, (handleUpload ⟨some mediaFile, th, vn, un⟩ nowName nowAt doc).doc =
        saveMetadata (readMetadata doc ++ [e]) ∧
      e.videoName = jsOrElse vn mediaFile.originalname ∧
      e.username = jsOrElse un "Unknown" ∧
      e.type = mediaTypeOf mediaFile ∧
      e.uploadedAt = nowAt := by
  cases th
  · exact ⟨_, rfl, rfl, rfl, rfl, rfl⟩
  · exact ⟨_, rfl, rfl, rfl, rfl, rfl⟩

theorem handleUpload_v1_doc_eq (mediaFile : UploadedFile)
    (th : Option UploadedFile) (vn un : Option String) (nowName nowAt : Int)
    (doc : StoredDoc) :
    ∃ e, (handleUpload_v1 ⟨some mediaFile, th, vn, un⟩ nowName nowAt doc).doc =
        saveMetadata (readMetadata doc ++ [e]) ∧
      e.videoName = jsOrElse vn mediaFile.originalname ∧
      e.username = jsOrElse un "Unknown" ∧
      e.type = mediaTypeOf mediaFile ∧
      e.uploadedAt = nowAt := by
  cases th
  · exact ⟨_, rfl, rfl, rfl, rfl, rfl⟩
  · exact ⟨_, rfl, rfl, rfl, rfl, rfl⟩

theorem mem_listing_of_saved (e : MediaRecord) (rest : List MediaRecord)
    (he : e.type = "videos") :
    ∃ l, (handleGetMedia "videos" (saveMetadata (rest ++ [e]))).1 =
        MediaListResponse.ok l ∧ e ∈ l := by
  refine ⟨((readMetadata (saveMetadata (rest ++ [e]))).filter
      (fun item => item.type == "videos")).mergeSort uploadedDesc, ?_, ?_⟩
  · simp [handleGetMedia]
  · rw [List.mem_mergeSort, readMetadata_save, List.mem_filter]
    exact ⟨List.mem_append_right _ (List.mem_singleton_self e), by simp [he]⟩

/-- C1.  After a valid upload whose media file declares a video MIME
type, the `videos` listing contains a record whose title is the
submitted title (the original filename when the field is absent or
empty) and whose uploader name is the submitted name (`Unknown` when
absent or empty); this holds for the upload handler of either server
block. -/
theorem upload_then_listed (req : UploadRequest) (mediaFile : UploadedFile)
    (nowName nowAt : Int) (doc : StoredDoc)
    (hm : req.media = some mediaFile)
    (hv : jsStartsWith mediaFile.mimetype "video" = true) :
    (∃ l, (handleGetMedia "videos"
          (handleUpload req nowName nowAt doc).doc).1 =
        MediaListResponse.ok l ∧
      ∃ r, r ∈ l ∧
        r.videoName = jsOrElse req.videoName mediaFile.originalname ∧
        r.username = jsOrElse req.username "Unknown") ∧
    (∃ l, (handleGetMedia "videos"
          (handleUpload_v1 req nowName nowAt doc).doc).1 =
        MediaListResponse.ok l ∧
      ∃ r, r ∈ l ∧
        r.videoName = jsOrElse req.videoName mediaFile.originalname ∧
        r.username = jsOrElse req.username "Unknown") := by
  obtain ⟨m, th, vn, un⟩ := req
  simp only [UploadRequest.media] at hm
  subst hm
  constructor
  · obtain ⟨e, hd, hvn, hun, hty, _⟩ :=
      handleUpload_doc_eq mediaFile th vn un nowName nowAt doc
    have he : e.type = "videos" := by
      rw [hty]
      simp [mediaTypeOf, hv]
    obtain ⟨l, hl, hmem⟩ := mem_listing_of_saved e (readMetadata doc) he
    refine ⟨l, ?_, e, hmem, hvn, hun⟩
    rw [hd]
    exact hl
  · obtain ⟨e, hd, hvn, hun, hty, _⟩ :=
      handleUpload_v1_doc_eq mediaFile th vn un nowName nowAt doc
    have he : e.type = "videos" := by
      rw [hty]
      simp [mediaTypeOf, hv]
    obtain ⟨l, hl, hmem⟩ := mem_listing_of_saved e (readMetadata doc) he
    refine ⟨l, ?_, e, hmem, hvn, hun⟩
    rw [hd]
    exact hl

/-- Witness for C1: uploading `clip.mp4` with MIME type `video/mp4`,
title `My Clip` and no uploader name into an absent store, then listing
`videos`. -/
theorem upload_then_listed_witness :
    (∃ l, (handleGetMedia "videos"
          (handleUpload ⟨some ⟨"uploads/temp/abc", "clip.mp4", "video/mp4"⟩,
              none, some "My Clip", none⟩ 5 7 StoredDoc.absent).doc).1 =
        MediaListResponse.ok l ∧
      ∃ r, r ∈ l ∧
        r.videoName = jsOrElse (some "My Clip") "clip.mp4" ∧
        r.username = jsOrElse none "Unknown") ∧
    (∃ l, (handleGetMedia "videos"
          (handleUpload_v1 ⟨some ⟨"uploads/temp/abc", "clip.mp4", "video/mp4"⟩,
              none, some "My Clip", none⟩ 5 7 StoredDoc.absent).doc).1 =
        MediaListResponse.ok l ∧
      ∃ r, r ∈ l ∧
        r.videoName = jsOrElse (some "My Clip") "clip.mp4" ∧
        r.username = jsOrElse none "Unknown") :=
  upload_then_listed
    ⟨some ⟨"uploads/temp/abc", "clip.mp4", "video/mp4"⟩,
     none, some "My Clip", none⟩
    ⟨"uploads/temp/abc", "clip.mp4", "video/mp4"⟩ 5 7 StoredDoc.absent rfl rfl

/-- Concrete media file used in the thumbnail theorems. -/
def mfW : UploadedFile := ⟨"uploads/temp/m1", "clip.mp4", "video/mp4"⟩

/-- Concrete thumbnail file used in the thumbnail theorems. -/
def tfW : UploadedFile := ⟨"uploads/temp/t1", "cover.jpg", "image/jpeg"⟩

/-- C5 counterexample: in the first server block (src/server.js:76-83)
uploading `clip.mp4` (with `Date.now()` reading 100) together with
thumbnail `cover.jpg` stores the thumbnail under `100.mp4.jpg` — the
full generated media filename with its extension kept — whereas the
claim prescribes the base name `100` combined with `.jpg`. -/
theorem thumbnail_name_counterexample :
    (readMetadata (handleUpload_v1 ⟨some mfW, some tfW, none, none⟩
        100 100 StoredDoc.absent).doc).map (fun r => r.thumbnail) =
      [some "/media/thumbnails/100.mp4.jpg"] ∧
    (handleUpload_v1 ⟨some mfW, some tfW, none, none⟩
        100 100 StoredDoc.absent).moves =
      [⟨"uploads/temp/m1", "uploads/videos/100.mp4"⟩,
       ⟨"uploads/temp/t1", "uploads/thumbnails/100.mp4.jpg"⟩] ∧
    ("100.mp4.jpg" : String) ≠ parseName "100.mp4" ++ extname "cover.jpg" :=
  ⟨rfl, rfl, by decide⟩

/-- C5 amended.  When a thumbnail is provided, the handler of the second
server block stores it under the media base name (generated filename
with its extension removed) plus the thumbnail's original extension,
while the handler of the first block keeps the full generated media
filename (extension included) plus the thumbnail's original extension;
in both blocks the record's thumbnail path is `/media/thumbnails/`
followed by the destination filename, and the thumbnail is moved into
`uploads/thumbnails/` under that filename. -/
theorem thumbnail_naming (req : UploadRequest)
    (mediaFile thumbFile : UploadedFile) (nowName nowAt : Int)
    (doc : StoredDoc) (hm : req.media = some mediaFile)
    (ht : req.thumbnail = some thumbFile) :
    (∃ e, readMetadata (handleUpload req nowName nowAt doc).doc =
        readMetadata doc ++ [e] ∧
      e.thumbnail = some ("/media/thumbnails/" ++
        (parseName (toString nowName ++ extname mediaFile.originalname) ++
         extname thumbFile.originalname)) ∧
      (handleUpload req nowName nowAt doc).moves.getLast? =
        some ⟨thumbFile.path, "uploads/thumbnails/" ++
          (parseName (toString nowName ++ extname mediaFile.originalname) ++
           extname thumbFile.originalname)⟩) ∧
    (∃ e, readMetadata (handleUpload_v1 req nowName nowAt doc).doc =
        readMetadata doc ++ [e] ∧
      e.thumbnail = some ("/media/thumbnails/" ++
        (toString nowName ++ extname mediaFile.originalname ++
         extname thumbFile.originalname)) ∧
      (handleUpload_v1 req nowName nowAt doc).moves.getLast? =
        some ⟨thumbFile.path, "uploads/thumbnails/" ++
          (toString nowName ++ extname mediaFile.originalname ++
           extname thumbFile.originalname)⟩) := by
  obtain ⟨m, th, vn, un⟩ := req
  simp only [UploadRequest.media] at hm
  simp only [UploadRequest.thumbnail] at ht
  subst hm
  subst ht
  exact ⟨⟨_, readMetadata_save _, rfl, rfl⟩, ⟨_, readMetadata_save _, rfl, rfl⟩⟩

/-- Witness for the amended C5 at the concrete media file `clip.mp4`
and thumbnail `cover.jpg`. -/
theorem thumbnail_naming_witness :
    (∃ e, readMetadata (handleUpload ⟨some mfW, some tfW, none, none⟩
          100 100 StoredDoc.absent).doc =
        readMetadata StoredDoc.absent ++ [e] ∧
      e.thumbnail = some ("/media/thumbnails/" ++
        (parseName (toString (100 : Int) ++ extname mfW.originalname) ++
         extname tfW.originalname)) ∧
      (handleUpload ⟨some mfW, some tfW, none, none⟩
          100 100 StoredDoc.absent).moves.getLast? =
        some ⟨tfW.path, "uploads/thumbnails/" ++
          (parseName (toString (100 : Int) ++ extname mfW.originalname) ++
           extname tfW.originalname)⟩) ∧
    (∃ e, readMetadata (handleUpload_v1 ⟨some mfW, some tfW, none, none⟩
          100 100 StoredDoc.absent).doc =
        readMetadata StoredDoc.absent ++ [e] ∧
      e.thumbnail = some ("/media/thumbnails/" ++
        (toString (100 : Int) ++ extname mfW.originalname ++
         extname tfW.originalname)) ∧
      (handleUpload_v1 ⟨some mfW, some tfW, none, none⟩
          100 100 StoredDoc.absent).moves.getLast? =
        some ⟨tfW.path, "uploads/thumbnails/" ++
          (toString (100 : Int) ++ extname mfW.originalname ++
           extname tfW.originalname)⟩) :=
  thumbnail_naming ⟨some mfW, some tfW, none, none⟩ mfW tfW 100 100
    StoredDoc.absent rfl rfl

/-- C9.  The metadata collection is append-only: a valid upload (in
either server block) leaves the persisted collection equal to the
previous collection with exactly one record appended at its end, and
the listing, search, static-file, and support handlers never change the
metadata document (the supporters handler does not touch the metadata
document at all — it is a function of the separate supporters file
only). -/
theorem metadata_append_only (req : UploadRequest) (mediaFile : UploadedFile)
    (nowName nowAt : Int) (doc : StoredDoc)
    (hm : req.media = some mediaFile) :
    (∃ e, readMetadata (handleUpload req nowName nowAt doc).doc =
        readMetadata doc ++ [e]) ∧
    (∃ e, readMetadata (handleUpload_v1 req nowName nowAt doc).doc =
        readMetadata doc ++ [e]) ∧
    (∀ t d, (handleGetMedia t d).2 = d) ∧
    (∀ q d, (handleSearch q d).2 = d) ∧
    (∀ p files d, (handleStaticMedia p files d).2 = d) ∧
    (∀ d, (handleSupport d).2 = d) := by
  obtain ⟨m, th, vn, un⟩ := req
  simp only [UploadRequest.media] at hm
  subst hm
  refine ⟨?_, ?_, ?_, ?_, ?_, ?_⟩
  · obtain ⟨e, hd, _⟩ := handleUpload_doc_eq mediaFile th vn un nowName nowAt doc
    exact ⟨e, by rw [hd, readMetadata_save]⟩
  · obtain ⟨e, hd, _⟩ :=
      handleUpload_v1_doc_eq mediaFile th vn un nowName nowAt doc
    exact ⟨e, by rw [hd, readMetadata_save]⟩
  · intro t d
    unfold handleGetMedia
    split <;> rfl
  · intro q d
    by_cases h : jsTrim (jsToLower (jsOrElse q "")) = "" <;>
      simp [handleSearch, h]
  · intro p files d
    rfl
  · intro d
    rfl

/-- Witness for C9: an audio upload into an absent store appends one
record, and the read-only handlers leave a concrete store unchanged. -/
theorem metadata_append_only_witness :
    (∃ e, readMetadata (handleUpload
          ⟨some ⟨"uploads/temp/s1", "song.mp3", "audio/mpeg"⟩,
           none, none, none⟩ 9 9 StoredDoc.absent).doc =
        readMetadata StoredDoc.absent ++ [e]) ∧
    (∃ e, readMetadata (handleUpload_v1
          ⟨some ⟨"uploads/temp/s1", "song.mp3", "audio/mpeg"⟩,
           none, none, none⟩ 9 9 StoredDoc.absent).doc =
        readMetadata StoredDoc.absent ++ [e]) ∧
    (∀ t d, (handleGetMedia t d).2 = d) ∧
    (∀ q d, (handleSearch q d).2 = d) ∧
    (∀ p files d, (handleStaticMedia p files d).2 = d) ∧
    (∀ d, (handleSupport d).2 = d) :=
  metadata_append_only
    ⟨some ⟨"uploads/temp/s1", "song.mp3", "audio/mpeg"⟩, none, none, none⟩
    ⟨"uploads/temp/s1", "song.mp3", "audio/mpeg"⟩ 9 9 StoredDoc.absent rfl
